import Mathlib

/-!
Verification of the arbitrary-precision decimal calculator.

The program is a Rust calculator with two source files:
* number.rs — a fixed-point decimal type: `BigNumber { mantissa: BigInt, scale: i32 }`
  representing the exact value mantissa * 10^(-scale), with parsing (plain decimal and
  scientific notation), normalization, the four arithmetic operations, integer power,
  and formatting (plain form with a scientific-notation fallback).
* main.rs — a whitespace-tokenized infix evaluator over an operand stack and an
  operator stack ("pop while the top has greater-or-equal precedence").

Shallow embedding conventions:
* Rust BigInt is embedded as Lean Int.  Rust i32 values (scale, precision, exponent)
  are embedded as Int; the claims under verification do not exercise i32 overflow.
* Rust strings are embedded as List Char (the evaluator API keeps String, converting
  via String.data).  str::trim, str::split_whitespace and BigInt string parsing and
  display are embedded directly on character lists.
* Rust BigInt division (`/` and `%`) truncates toward zero, so it is embedded with
  Int.tdiv.  The trailing-zero stripping loop in normalize only ever divides exactly,
  but Int.tdiv is used there as well for faithfulness.
* num_bigint's FromStr (used by `num_str.parse::<BigInt>()`) accepts one optional
  leading '+' or '-' sign followed by a nonempty run of ASCII digits; this external
  primitive is embedded as parseBigInt below.
* Fallible Rust functions returning Result<T, String> are embedded as
  Except String T.
-/

deriving instance DecidableEq for Except

/-- Embedding of Rust str::trim on character lists (strip leading and trailing
whitespace). -/
def rustTrim (l : List Char) : List Char :=
  ((l.dropWhile Char.isWhitespace).reverse.dropWhile Char.isWhitespace).reverse

/-- Digit-run parser: some value iff the list is a nonempty run of ASCII digits. -/
def parseNatDigits (l : List Char) : Option Nat :=
  if l ≠ [] ∧ l.all Char.isDigit then
    some (l.foldl (fun a c => 10 * a + (c.toNat - 48)) 0)
  else none

/-- Embedding of num_bigint's FromStr for BigInt (used by `.parse::<BigInt>()`):
one optional leading sign, then a nonempty run of ASCII digits. -/
def parseBigInt (l : List Char) : Option Int :=
  match l with
  | c :: r =>
    if c = '+' then (parseNatDigits r).map (fun n => (n : Int))
    else if c = '-' then (parseNatDigits r).map (fun n => -(n : Int))
    else (parseNatDigits (c :: r)).map (fun n => (n : Int))
  | [] => none

/-- Shape of the strings accepted by num_bigint's FromStr: one optional leading
sign, then a nonempty run of ASCII digits.  (The amended C2 claim is stated with
this predicate.) -/
def signedIntString (l : List Char) : Prop :=
  match l with
  | c :: r =>
    if c = '+' ∨ c = '-' then r ≠ [] ∧ r.all Char.isDigit = true
    else (c :: r).all Char.isDigit = true
  | [] => False

/-- Display text of num_bigint's ParseBigIntError, interpolated into the Rust
error messages by from_decimal. -/
def bigIntErrMsg (l : List Char) : String :=
  match l with
  | c :: r =>
    if c = '+' ∨ c = '-' then
      if r = [] then "cannot parse integer from empty string" else "invalid digit found in string"
    else "invalid digit found in string"
  | [] => "cannot parse integer from empty string"

/-- Sign-prefix handling of BigNumber::from_decimal: consume one optional leading
'+' or '-', returning the sign factor and the remainder. -/
def splitSign (l : List Char) : Int × List Char :=
  match l with
  | c :: r =>
    if c = '+' then (1, r)
    else if c = '-' then (-1, r)
    else (1, c :: r)
  | [] => (1, [])

/-- Split a character list at its first '.', if any (embedding of str::find('.')
plus the slicing done around it). -/
def splitAtDot : List Char → Option (List Char × List Char)
  | [] => none
  | c :: r => if c = '.' then some ([], r) else (splitAtDot r).map (fun p => (c :: p.1, p.2))

/-- Split a character list at its first 'e' or 'E', if any. -/
def splitAtE : List Char → Option (List Char × List Char)
  | [] => none
  | c :: r =>
    if c = 'e' ∨ c = 'E' then some ([], r)
    else (splitAtE r).map (fun p => (c :: p.1, p.2))

/-- Canonical decimal digits of a natural number, with explicit fuel (most
significant digit first).  Embedding of BigInt's decimal Display. -/
def natStrAux : Nat → Nat → List Char
  | 0, _ => []
  | fuel + 1, n =>
    if n < 10 then [Nat.digitChar n]
    else natStrAux fuel (n / 10) ++ [Nat.digitChar (n % 10)]

/-- Canonical decimal digit string of a natural number. -/
def natStr (n : Nat) : List Char := natStrAux (n + 1) n

/-- Canonical decimal rendering of an integer: '-' prefix for negatives.
Embedding of BigInt's (and i32's) Display. -/
def intStr (m : Int) : List Char :=
  if m < 0 then '-' :: natStr m.natAbs else natStr m.toNat

/-- Embedding of str::trim_end_matches('0'). -/
def trimZerosEnd (l : List Char) : List Char :=
  (l.reverse.dropWhile (fun c => c == '0')).reverse

/-- The decimal value type of number.rs: `BigNumber { mantissa: BigInt, scale: i32 }`,
representing mantissa * 10^(-scale). -/
structure BigNumber where
  mantissa : Int
  scale : Int
  deriving DecidableEq

namespace BigNumber

/-- Embedding of BigNumber::from_decimal: optional sign, then either a plain digit
string (scale 0) or a digit string with one '.' (scale = digits after the dot).
The digit string itself is handed to BigInt's parser, which accepts one more
optional sign of its own. -/
def from_decimal (l : List Char) : Except String BigNumber :=
  let t := rustTrim l
  let sn := splitSign t
  if sn.2 = [] then .error "Missing digits after sign"
  else
    match splitAtDot sn.2 with
    | some p =>
      if '.' ∈ p.2 then .error "Multiple decimal points"
      else
        let mantissaStr := p.1 ++ p.2
        if mantissaStr = [] then .error "Missing digits around decimal point"
        else
          match parseBigInt mantissaStr with
          | some m => .ok ⟨m * sn.1, (p.2.length : Int)⟩
          | none => .error ("Invalid decimal format: " ++ bigIntErrMsg mantissaStr)
    | none =>
      match parseBigInt sn.2 with
      | some m => .ok ⟨m * sn.1, 0⟩
      | none => .error ("Invalid integer format: " ++ bigIntErrMsg sn.2)

/-- Embedding of BigNumber::multiply_by_power_of_10: shift the scale. -/
def multiply_by_power_of_10 (x : BigNumber) (exp : Int) : BigNumber :=
  ⟨x.mantissa, x.scale - exp⟩

/-- Matcher for the base part of the scientific-notation regex, i.e. the part of
`^\s*([+-]?\s*\d*\.?\d+)\s*` standing before the exponent marker: leading
whitespace, one optional sign, whitespace, a nonempty digit string containing at
most one dot and ending in a digit, trailing whitespace. -/
def sciBaseOk (l : List Char) : Bool :=
  let l1 := (l.dropWhile Char.isWhitespace)
  let l2 := match l1 with
    | '+' :: r => r
    | '-' :: r => r
    | _ => l1
  let l3 := l2.dropWhile Char.isWhitespace
  let body := l3.takeWhile (fun c => c.isDigit || c == '.')
  let rest := l3.dropWhile (fun c => c.isDigit || c == '.')
  decide (body ≠ []) && rest.all Char.isWhitespace &&
    decide (body.count '.' ≤ 1) &&
    (match body.getLast? with
     | some c => c.isDigit
     | none => false)

/-- Matcher for the exponent part of the scientific-notation regex,
`\s*([+-]?\s*\d+)\s*$`: whitespace, optional sign, whitespace, nonempty digits,
trailing whitespace. -/
def sciExpOk (l : List Char) : Bool :=
  let l1 := (l.dropWhile Char.isWhitespace)
  let l2 := match l1 with
    | '+' :: r => r
    | '-' :: r => r
    | _ => l1
  let l3 := l2.dropWhile Char.isWhitespace
  let body := l3.takeWhile Char.isDigit
  let rest := l3.dropWhile Char.isDigit
  decide (body ≠ []) && rest.all Char.isWhitespace

/-- Embedding of BigNumber::from_scientific.  The regex
`^\s*([+-]?\s*\d*\.?\d+)\s*[eE]\s*([+-]?\s*\d+)\s*$` matches exactly when the
input holds a single 'e'/'E' whose left part matches the base pattern and whose
right part matches the exponent pattern (neither capture may contain an 'e').
The captures are used with all whitespace removed; the exponent must fit an i32;
the base is parsed as a plain decimal and its scale shifted by the exponent. -/
def from_scientific (l : List Char) : Except String BigNumber :=
  let t := rustTrim l
  match splitAtE t with
  | none => .error ("Invalid scientific notation: '" ++ String.mk t ++ "'")
  | some p =>
    if p.2.any (fun c => c == 'e' || c == 'E') then
      .error ("Invalid scientific notation: '" ++ String.mk t ++ "'")
    else if sciBaseOk p.1 && sciExpOk p.2 then
      let baseStr := p.1.filter (fun c => !c.isWhitespace)
      let expStr := p.2.filter (fun c => !c.isWhitespace)
      match parseBigInt expStr with
      | none => .error ("Invalid exponent '" ++ String.mk expStr ++ "': invalid digit found in string")
      | some e =>
        if e < -2147483648 then
          .error ("Invalid exponent '" ++ String.mk expStr ++ "': number too small to fit in target type")
        else if 2147483647 < e then
          .error ("Invalid exponent '" ++ String.mk expStr ++ "': number too large to fit in target type")
        else
          match from_decimal baseStr with
          | .ok base => .ok (base.multiply_by_power_of_10 e)
          | .error msg => .error msg
    else .error ("Invalid scientific notation: '" ++ String.mk t ++ "'")

/-- Embedding of BigNumber::from_str: trim, reject empty input, dispatch on the
presence of an 'e'/'E' to scientific or plain decimal parsing. -/
def from_str (l : List Char) : Except String BigNumber :=
  let t := rustTrim l
  if t = [] then .error "Empty string"
  else if t.any (fun c => c == 'e' || c == 'E') then from_scientific t
  else from_decimal t

/-- Trailing-zero stripping loop of BigNumber::normalize, with the positive scale
as the recursion counter: while scale > 0 and mantissa % 10 == 0, divide the
mantissa by 10 and decrement the scale.  Returns the mantissa and remaining scale. -/
def stripTZ : Int → Nat → Int × Nat
  | m, 0 => (m, 0)
  | m, n + 1 => if m % 10 = 0 then stripTZ (Int.tdiv m 10) n else (m, n + 1)

/-- Embedding of BigNumber::normalize: a zero mantissa collapses to ⟨0, 0⟩;
otherwise trailing zeros are stripped while the scale is positive. -/
def normalize (x : BigNumber) : BigNumber :=
  if x.mantissa = 0 then ⟨0, 0⟩
  else if 0 < x.scale then
    let p := stripTZ x.mantissa x.scale.toNat
    ⟨p.1, (p.2 : Int)⟩
  else x

/-- Embedding of BigNumber::scale_to: reach the target scale by multiplying the
mantissa by a power of ten (target above current) or by truncated division
(target below current). -/
def scale_to (x : BigNumber) (target : Int) : BigNumber :=
  if x.scale = target then x
  else if x.scale < target then ⟨x.mantissa * 10 ^ (target - x.scale).toNat, target⟩
  else ⟨Int.tdiv x.mantissa (10 ^ (x.scale - target).toNat), target⟩

/-- Embedding of BigNumber::align_scales: bring both operands to the maximum of
the two scales. -/
def align_scales (x y : BigNumber) : BigNumber × BigNumber :=
  let m := max x.scale y.scale
  (x.scale_to m, y.scale_to m)

/-- Embedding of BigNumber::add. -/
def add (x y : BigNumber) : BigNumber :=
  let p := align_scales x y
  normalize ⟨p.1.mantissa + p.2.mantissa, p.1.scale⟩

/-- Embedding of BigNumber::subtract. -/
def subtract (x y : BigNumber) : BigNumber :=
  let p := align_scales x y
  normalize ⟨p.1.mantissa - p.2.mantissa, p.1.scale⟩

/-- Embedding of BigNumber::multiply. -/
def multiply (x y : BigNumber) : BigNumber :=
  normalize ⟨x.mantissa * y.mantissa, x.scale + y.scale⟩

/-- Embedding of BigNumber::divide: error on a zero divisor; scale the dividend
up by 10^(precision + divisor.scale - dividend.scale) when that is positive, then
divide mantissas with BigInt's truncating division and normalize. -/
def divide (x y : BigNumber) (precision : Int) : Except String BigNumber :=
  if y.mantissa = 0 then .error "Division by zero"
  else
    let scale_up := precision + y.scale - x.scale
    let dividend := if 0 < scale_up then x.mantissa * 10 ^ scale_up.toNat else x.mantissa
    let quotient := Int.tdiv dividend y.mantissa
    let result_scale := if 0 < scale_up then scale_up else x.scale - y.scale
    .ok (normalize ⟨quotient, result_scale⟩)

/-- Repeated-multiplication loop of BigNumber::power: powLoop b k is b multiplied
by itself k additional times (k+1 factors in total), each step normalized by
multiply. -/
def powLoop (b : BigNumber) : Nat → BigNumber
  | 0 => b
  | n + 1 => (powLoop b n).multiply b

/-- Embedding of BigNumber::power: reject a positive-scale exponent, an exponent
mantissa whose decimal string does not parse as an i32, and a negative exponent
mantissa; exponent mantissa 0 yields ⟨1, 0⟩; otherwise multiply the base by
itself (mantissa - 1) additional times and normalize.  Note the code raises to
the power of the exponent's MANTISSA (`exponent.mantissa.to_string().parse::<i32>()`),
never applying the exponent's scale. -/
def power (x e : BigNumber) : Except String BigNumber :=
  if 0 < e.scale then .error "Non-integer exponents not supported"
  else if e.mantissa < -2147483648 ∨ 2147483647 < e.mantissa then .error "Exponent too large"
  else if e.mantissa < 0 then .error "Negative exponents not supported"
  else if e.mantissa = 0 then .ok ⟨1, 0⟩
  else .ok (normalize (powLoop x (e.mantissa.toNat - 1)))

/-- Character list of BigNumber::to_standard_string: for scale ≤ 0 the mantissa
digits followed by |scale| zeros; for positive scale the mantissa's absolute
digits split so the last `scale` digits form the fractional part, left-padded
with zeros when too short, with the sign re-attached. -/
def stdChars (x : BigNumber) : List Char :=
  if x.scale ≤ 0 then intStr x.mantissa ++ List.replicate (-x.scale).toNat '0'
  else if ((natStr x.mantissa.natAbs).length : Int) ≤ x.scale then
    (if x.mantissa < 0 then ['-'] else []) ++
      '0' :: '.' :: (List.replicate (x.scale.toNat - (natStr x.mantissa.natAbs).length) '0' ++
        natStr x.mantissa.natAbs)
  else
    (if x.mantissa < 0 then ['-'] else []) ++
      ((natStr x.mantissa.natAbs).take ((natStr x.mantissa.natAbs).length - x.scale.toNat) ++
        '.' :: (natStr x.mantissa.natAbs).drop ((natStr x.mantissa.natAbs).length - x.scale.toNat))

/-- Embedding of BigNumber::to_standard_string. -/
def to_standard_string (x : BigNumber) : String := String.mk (stdChars x)

/-- Character list of BigNumber::to_scientific_notation: "0" for a zero mantissa;
otherwise sign, first significant digit, a '.' plus up to 10 further digits with
trailing zeros stripped (the '.' is pushed whenever more than one digit exists,
even if all of them are stripped), then 'e' and the exponent
(number of significant digits - 1 - scale). -/
def sciChars (x : BigNumber) : List Char :=
  if x.mantissa = 0 then ['0']
  else
    match natStr x.mantissa.natAbs with
    | [] => ['0']
    | d :: rest =>
      (if x.mantissa < 0 then ['-'] else []) ++
        d :: ((if rest = [] then [] else '.' :: trimZerosEnd (rest.take 10)) ++
          'e' :: intStr (((rest.length + 1 : Nat) : Int) - 1 - x.scale))

/-- Embedding of BigNumber::to_scientific_notation. -/
def to_scientific (x : BigNumber) : String := String.mk (sciChars x)

/-- Embedding of BigNumber::to_string_with_limit: the plain form when its length
is within max_chars, otherwise the scientific form. -/
def to_string_with_limit (x : BigNumber) (max_chars : Nat) : String :=
  if (to_standard_string x).length ≤ max_chars then to_standard_string x
  else to_scientific x

/-- Embedding of BigNumber::to_string: the 25-character display limit. -/
def to_string (x : BigNumber) : String := to_string_with_limit x 25

/-- Negation of a decimal value (flip the mantissa's sign, keep the scale) —
the mathematical negation used to state the sign law of divide. -/
def neg (x : BigNumber) : BigNumber := ⟨-x.mantissa, x.scale⟩

/-- Exact rational value represented by a decimal value: mantissa * 10^(-scale). -/
def val (x : BigNumber) : ℚ := (x.mantissa : ℚ) * (10 : ℚ) ^ (-x.scale)

/-- Unnormalized sum of two decimal values at their aligned common scale: the
composition of align_scales and the mantissa addition inside add, before the
final normalize (a proof-side description of add's intermediate value). -/
def addRaw (x y : BigNumber) : BigNumber :=
  ⟨x.mantissa * 10 ^ (max x.scale y.scale - x.scale).toNat +
    y.mantissa * 10 ^ (max x.scale y.scale - y.scale).toNat,
   max x.scale y.scale⟩

end BigNumber

/-- Spec notion of a normalized decimal value: no trailing zero removable from the
mantissa while the scale is positive, and a zero value is exactly ⟨0, 0⟩. -/
def isNormalized (x : BigNumber) : Prop :=
  (0 < x.scale → ¬ (10 ∣ x.mantissa)) ∧ (x.mantissa = 0 → x.scale = 0)

instance (x : BigNumber) : Decidable (isNormalized x) := by
  unfold isNormalized
  infer_instance

/-- Embedding of parse_number from number.rs. -/
def parse_number (s : String) : Except String BigNumber := BigNumber.from_str s.data

/-- Embedding of precedence from main.rs. -/
def precedence (op : Char) : Nat :=
  match op with
  | '+' => 1
  | '-' => 1
  | '*' => 2
  | '/' => 2
  | '^' => 3
  | _ => 0

/-- Embedding of apply_operation from main.rs: pop two operands (right operand
first), combine them with the operator, push the result; fewer than two operands
is the "Not enough operands" error. -/
def apply_operation (numbers : List BigNumber) (op : Char) : Except String (List BigNumber) :=
  match numbers with
  | b :: a :: rest =>
    match op with
    | '+' => .ok (a.add b :: rest)
    | '-' => .ok (a.subtract b :: rest)
    | '*' => .ok (a.multiply b :: rest)
    | '/' => (a.divide b 15).map (fun r => r :: rest)
    | '^' => (a.power b).map (fun r => r :: rest)
    | _ => .error ("Unknown operator: " ++ String.mk [op])
  | _ => .error "Not enough operands"

/-- Operator-stack reduction loop of evaluate_expression: while the stack's top
has precedence ≥ the incoming operator's, pop and apply it; finally push the
incoming operator. -/
def popApplyGE (numbers : List BigNumber) (ops : List Char) (op : Char) :
    Except String (List BigNumber × List Char) :=
  match ops with
  | [] => .ok (numbers, [op])
  | top :: rest =>
    if precedence op ≤ precedence top then
      match apply_operation numbers top with
      | .ok ns => popApplyGE ns rest op
      | .error e => .error e
    else .ok (numbers, op :: top :: rest)

/-- Final drain of the operator stack in evaluate_expression. -/
def applyRemaining (numbers : List BigNumber) (ops : List Char) : Except String (List BigNumber) :=
  match ops with
  | [] => .ok numbers
  | top :: rest =>
    match apply_operation numbers top with
    | .ok ns => applyRemaining ns rest
    | .error e => .error e

/-- Accumulator-based embedding of str::split_whitespace: maximal nonempty runs
of non-whitespace characters. -/
def splitWSAux : List Char → List Char → List (List Char)
  | [], acc => if acc = [] then [] else [acc.reverse]
  | c :: r, acc =>
    if c.isWhitespace then
      if acc = [] then splitWSAux r [] else acc.reverse :: splitWSAux r []
    else splitWSAux r (c :: acc)

/-- Embedding of str::split_whitespace. -/
def split_whitespace (l : List Char) : List (List Char) := splitWSAux l []

/-- Token loop of evaluate_expression: a token parsing as a number is pushed on
the operand stack; a single-character operator token triggers the
pop-while-greater-or-equal reduction then is pushed on the operator stack; any
other token is the "Invalid operator" error.  (An empty token — unreachable from
split_whitespace — falls through both branches and is skipped, as in the Rust.) -/
def evalTokens : List (List Char) → List BigNumber → List Char → Except String (List BigNumber)
  | [], nums, ops => applyRemaining nums ops
  | t :: rest, nums, ops =>
    match BigNumber.from_str t with
    | .ok n => evalTokens rest (n :: nums) ops
    | .error _ =>
      match t with
      | [] => evalTokens rest nums ops
      | c :: cs =>
        if (c = '+' ∨ c = '-' ∨ c = '*' ∨ c = '/' ∨ c = '^') ∧ cs = [] then
          match popApplyGE nums ops c with
          | .ok p => evalTokens rest p.1 p.2
          | .error e => .error e
        else .error ("Invalid operator: " ++ String.mk t)

/-- Embedding of evaluate_expression from main.rs. -/
def evaluate_expression (expr : String) : Except String String :=
  let tokens := split_whitespace expr.data
  match tokens with
  | [] => .ok "0"
  | [t] => (BigNumber.from_str t).map BigNumber.to_string
  | _ =>
    match evalTokens tokens [] [] with
    | .error e => .error e
    | .ok [n] => .ok (n.to_string_with_limit 25)
    | .ok _ => .error "Invalid expression"

/-!
Helper lemmas.
-/

theorem stripTZ_spec (n : Nat) (m : Int) :
    ∃ (k : Nat) (d : Int), k ≤ n ∧ m = 10 ^ k * d ∧ BigNumber.stripTZ m n = (d, n - k) := by
  induction n generalizing m with
  | zero => exact ⟨0, m, le_refl _, by ring, by simp [BigNumber.stripTZ]⟩
  | succ n ih =>
    by_cases h : m % 10 = 0
    · have h10 : (10 : Int) ∣ m := by omega
      obtain ⟨c, rfl⟩ := h10
      have hc : Int.tdiv (10 * c) 10 = c := by
        rw [mul_comm]; exact Int.mul_tdiv_cancel c (by norm_num)
      obtain ⟨k, d, hk, hcd, heq⟩ := ih c
      refine ⟨k + 1, d, by omega, by rw [hcd]; ring, ?_⟩
      have hstep : BigNumber.stripTZ (10 * c) (n + 1) = BigNumber.stripTZ c n := by
        simp [BigNumber.stripTZ, h, hc]
      rw [hstep, heq]
      congr 1
      omega
    · exact ⟨0, m, by omega, by ring, by simp [BigNumber.stripTZ, h]⟩

theorem stripTZ_norm (n : Nat) (m : Int) (hm : m ≠ 0) :
    (BigNumber.stripTZ m n).1 ≠ 0 ∧
      ((BigNumber.stripTZ m n).2 ≠ 0 → ¬ (10 : Int) ∣ (BigNumber.stripTZ m n).1) := by
  induction n generalizing m with
  | zero => simp [BigNumber.stripTZ, hm]
  | succ n ih =>
    by_cases h : m % 10 = 0
    · have h10 : (10 : Int) ∣ m := by omega
      obtain ⟨c, rfl⟩ := h10
      have hc0 : c ≠ 0 := by rintro rfl; simp at hm
      have hc : Int.tdiv (10 * c) 10 = c := by
        rw [mul_comm]; exact Int.mul_tdiv_cancel c (by norm_num)
      simpa [BigNumber.stripTZ, h, hc] using ih c hc0
    · have hnd : ¬ (10 : Int) ∣ m := by omega
      simp [BigNumber.stripTZ, h, hm]
      intro hdvd
      exact hnd hdvd

theorem stripTZ_neg (n : Nat) (m : Int) :
    BigNumber.stripTZ (-m) n = (-(BigNumber.stripTZ m n).1, (BigNumber.stripTZ m n).2) := by
  induction n generalizing m with
  | zero => simp [BigNumber.stripTZ]
  | succ n ih =>
    by_cases h : m % 10 = 0
    · have h' : (-m) % 10 = 0 := by omega
      simp only [BigNumber.stripTZ, h, h', if_pos]
      rw [Int.neg_tdiv]
      exact ih _
    · have h' : ¬ (-m) % 10 = 0 := by omega
      simp [BigNumber.stripTZ, h, h']

theorem normalize_eq_of_nonneg (x : BigNumber) (hx : 0 ≤ x.scale) :
    ∃ (k : Nat) (d : Int), (k : Int) ≤ x.scale ∧ x.mantissa = 10 ^ k * d ∧
      x.normalize = ⟨d, x.scale - k⟩ := by
  obtain ⟨m, s⟩ := x
  simp only at hx ⊢
  by_cases hm : m = 0
  · refine ⟨s.toNat, 0, by omega, by simp [hm], ?_⟩
    have hsc : s - (s.toNat : Int) = 0 := by omega
    rw [hsc]
    simp [BigNumber.normalize, hm]
  · by_cases hs : 0 < s
    · obtain ⟨k, d, hk, hmd, heq⟩ := stripTZ_spec s.toNat m
      refine ⟨k, d, by omega, hmd, ?_⟩
      have hcast : ((s.toNat - k : Nat) : Int) = s - k := by omega
      simp [BigNumber.normalize, hm, hs, heq, hcast]
    · have hs0 : s = 0 := by omega
      subst hs0
      exact ⟨0, m, by omega, by ring, by simp [BigNumber.normalize, hm]⟩

theorem normalize_mul_ten (m s : Int) (hs : 0 ≤ s) :
    BigNumber.normalize ⟨m * 10, s + 1⟩ = BigNumber.normalize ⟨m, s⟩ := by
  by_cases hm : m = 0
  · simp [BigNumber.normalize, hm]
  · have hm' : m * 10 ≠ 0 := by simp [hm]
    have h1 : (0 : Int) < s + 1 := by omega
    have htoNat : (s + 1).toNat = s.toNat + 1 := by omega
    have hmod : (m * 10) % 10 = 0 := Int.mul_emod_left m 10 ▸ by omega
    have htd : Int.tdiv (m * 10) 10 = m := Int.mul_tdiv_cancel m (by norm_num)
    by_cases hs0 : 0 < s
    · simp [BigNumber.normalize, hm, hm', h1, hs0, htoNat, BigNumber.stripTZ, hmod, htd]
    · have : s = 0 := by omega
      subst this
      simp [BigNumber.normalize, hm, hm', h1, BigNumber.stripTZ, hmod, htd]

theorem normalize_mul_pow (d : Nat) (m s : Int) (hs : 0 ≤ s) :
    BigNumber.normalize ⟨m * 10 ^ d, s + (d : Int)⟩ = BigNumber.normalize ⟨m, s⟩ := by
  induction d with
  | zero => simp
  | succ d ih =>
    have e1 : m * 10 ^ (d + 1) = m * 10 ^ d * 10 := by ring
    have e2 : s + ((d + 1 : Nat) : Int) = (s + (d : Int)) + 1 := by push_cast; ring
    rw [e1, e2, normalize_mul_ten _ _ (by omega), ih]

theorem addRaw_scale (x y : BigNumber) : (x.addRaw y).scale = max x.scale y.scale := rfl

theorem scale_to_of_le (x : BigNumber) (t : Int) (h : x.scale ≤ t) :
    x.scale_to t = ⟨x.mantissa * 10 ^ (t - x.scale).toNat, t⟩ := by
  unfold BigNumber.scale_to
  rcases eq_or_lt_of_le h with heq | hlt
  · subst heq
    rw [if_pos rfl]
    have h0 : (x.scale - x.scale).toNat = 0 := by omega
    rw [h0, pow_zero, mul_one]
  · rw [if_neg (ne_of_lt hlt), if_pos hlt]

theorem add_eq (x y : BigNumber) : x.add y = (x.addRaw y).normalize := by
  simp only [BigNumber.add, BigNumber.align_scales]
  rw [scale_to_of_le x (max x.scale y.scale) (le_max_left _ _),
    scale_to_of_le y (max x.scale y.scale) (le_max_right _ _)]
  rfl

theorem addRaw_comm (x y : BigNumber) : x.addRaw y = y.addRaw x := by
  unfold BigNumber.addRaw
  rw [max_comm y.scale x.scale, add_comm]

theorem pow_toNat_mul (u v w : Int) (h1 : u ≤ v) (h2 : v ≤ w) :
    (10 : Int) ^ (v - u).toNat * 10 ^ (w - v).toNat = 10 ^ (w - u).toNat := by
  rw [← pow_add]
  congr 1
  omega

theorem addRaw_assoc (a b c : BigNumber) :
    (a.addRaw b).addRaw c = a.addRaw (b.addRaw c) := by
  have hbig : max a.scale (max b.scale c.scale) = max (max a.scale b.scale) c.scale :=
    (max_assoc _ _ _).symm
  unfold BigNumber.addRaw
  simp only [BigNumber.mk.injEq, hbig]
  refine ⟨?_, trivial⟩
  have h1 := pow_toNat_mul a.scale (max a.scale b.scale) (max (max a.scale b.scale) c.scale)
    (le_max_left _ _) (le_max_left _ _)
  have h2 := pow_toNat_mul b.scale (max a.scale b.scale) (max (max a.scale b.scale) c.scale)
    (le_max_right _ _) (le_max_left _ _)
  have h3 := pow_toNat_mul b.scale (max b.scale c.scale) (max (max a.scale b.scale) c.scale)
    (le_max_left _ _) (hbig ▸ le_max_right _ _)
  have h4 := pow_toNat_mul c.scale (max b.scale c.scale) (max (max a.scale b.scale) c.scale)
    (le_max_right _ _) (hbig ▸ le_max_right _ _)
  linear_combination a.mantissa * h1 + b.mantissa * h2 - b.mantissa * h3 - c.mantissa * h4

theorem add_norm_left (x y : BigNumber) (hx : 0 ≤ x.scale) :
    (x.normalize).add y = x.add y := by
  obtain ⟨k, d, hk, hmd, hnorm⟩ := normalize_eq_of_nonneg x hx
  rw [add_eq, add_eq, hnorm]
  have hS'le : max (x.scale - (k : Int)) y.scale ≤ max x.scale y.scale :=
    max_le_max (by omega) (le_refl _)
  have hS'0 : (0 : Int) ≤ max (x.scale - (k : Int)) y.scale :=
    le_trans (show (0 : Int) ≤ x.scale - (k : Int) by omega) (le_max_left _ _)
  set S' := max (x.scale - (k : Int)) y.scale with hS'def
  set S := max x.scale y.scale with hSdef
  set dd := (S - S').toNat with hdd
  have key : x.addRaw y =
      ⟨((⟨d, x.scale - (k : Int)⟩ : BigNumber).addRaw y).mantissa * 10 ^ dd, S' + (dd : Int)⟩ := by
    unfold BigNumber.addRaw
    simp only [BigNumber.mk.injEq]
    have ha1 : x.scale - (k : Int) ≤ S' := le_max_left _ _
    have ha2 : y.scale ≤ S' := le_max_right _ _
    have ha3 : x.scale ≤ S := le_max_left _ _
    have ha4 : y.scale ≤ S := le_max_right _ _
    refine ⟨?_, by omega⟩
    have h1 : (10 : Int) ^ (S' - (x.scale - (k : Int))).toNat * 10 ^ dd =
        10 ^ k * 10 ^ (S - x.scale).toNat := by
      rw [← pow_add, ← pow_add]
      congr 1
      omega
    have h2 : (10 : Int) ^ (S' - y.scale).toNat * 10 ^ dd = 10 ^ (S - y.scale).toNat := by
      rw [← pow_add]
      congr 1
      omega
    rw [hmd]
    linear_combination (-d) * h1 - y.mantissa * h2
  rw [key]
  exact (normalize_mul_pow dd _ S' hS'0).symm

theorem add_norm_right (x y : BigNumber) (hy : 0 ≤ y.scale) :
    x.add y.normalize = x.add y := by
  have h := add_norm_left y x hy
  rw [add_eq, add_eq] at h ⊢
  rw [addRaw_comm x y.normalize, addRaw_comm x y]
  exact h

theorem val_normalize (x : BigNumber) : x.normalize.val = x.val := by
  obtain ⟨m, s⟩ := x
  by_cases hm : m = 0
  · simp [BigNumber.normalize, BigNumber.val, hm]
  · by_cases hs : 0 < s
    · obtain ⟨k, d, hk, hmd, heq⟩ := stripTZ_spec s.toNat m
      have hn : BigNumber.normalize ⟨m, s⟩ = ⟨d, ((s.toNat - k : Nat) : Int)⟩ := by
        simp [BigNumber.normalize, hm, hs, heq]
      rw [hn, hmd]
      simp only [BigNumber.val]
      have hexp : (-(((s.toNat - k : Nat)) : Int)) = (k : Int) + (-s) := by omega
      rw [hexp, zpow_add₀ (by norm_num : (10 : ℚ) ≠ 0)]
      push_cast
      rw [zpow_natCast]
      ring
    · simp [BigNumber.normalize, hm, hs]

theorem val_multiply (x y : BigNumber) : (x.multiply y).val = x.val * y.val := by
  unfold BigNumber.multiply
  rw [val_normalize]
  obtain ⟨mx, sx⟩ := x
  obtain ⟨my, sy⟩ := y
  simp only [BigNumber.val, neg_add]
  rw [zpow_add₀ (by norm_num : (10 : ℚ) ≠ 0)]
  push_cast
  ring

theorem val_powLoop (b : BigNumber) (k : Nat) : (BigNumber.powLoop b k).val = b.val ^ (k + 1) := by
  induction k with
  | zero => simp [BigNumber.powLoop]
  | succ k ih =>
    show ((BigNumber.powLoop b k).multiply b).val = _
    rw [val_multiply, ih]
    ring

theorem isNormalized_normalize (x : BigNumber) : isNormalized x.normalize := by
  obtain ⟨m, s⟩ := x
  by_cases hm : m = 0
  · simp [BigNumber.normalize, hm, isNormalized]
  · by_cases hs : 0 < s
    · have h := stripTZ_norm s.toNat m hm
      simp only [BigNumber.normalize, hm, hs, if_neg, if_pos, if_true, if_false, isNormalized]
      constructor
      · intro hpos
        exact h.2 (by omega)
      · intro h0
        exact absurd h0 h.1
    · simp only [BigNumber.normalize, hm, hs, isNormalized]
      exact ⟨fun hpos => absurd hpos hs, fun h0 => absurd h0 hm⟩

theorem normalize_neg (x : BigNumber) : x.neg.normalize = x.normalize.neg := by
  obtain ⟨m, s⟩ := x
  by_cases hm : m = 0
  · simp [BigNumber.normalize, BigNumber.neg, hm]
  · have hm' : -m ≠ 0 := by simpa using hm
    by_cases hs : 0 < s
    · simp [BigNumber.normalize, BigNumber.neg, hm, hm', hs, stripTZ_neg]
    · simp [BigNumber.normalize, BigNumber.neg, hm, hm', hs]

theorem digitChar_isDigit (n : Nat) (h : n < 10) : (Nat.digitChar n).isDigit = true := by
  interval_cases n <;> decide

theorem natStrAux_digits (fuel : Nat) : ∀ (n : Nat), ∀ c ∈ natStrAux fuel n, c.isDigit = true := by
  induction fuel with
  | zero => intro n c hc; simp [natStrAux] at hc
  | succ fuel ih =>
    intro n c hc
    unfold natStrAux at hc
    by_cases h : n < 10
    · simp [h] at hc
      subst hc
      exact digitChar_isDigit n h
    · simp [h] at hc
      rcases hc with hc | hc
      · exact ih _ c hc
      · subst hc
        exact digitChar_isDigit _ (Nat.mod_lt _ (by norm_num))

theorem natStr_digits (n : Nat) : ∀ c ∈ natStr n, c.isDigit = true := natStrAux_digits _ _

theorem natStr_ne_nil (n : Nat) : natStr n ≠ [] := by
  unfold natStr natStrAux
  by_cases h : n < 10 <;> simp [h]

theorem e_not_mem_intStr (m : Int) : 'e' ∉ intStr m := by
  unfold intStr
  intro hmem
  split_ifs at hmem
  · rcases List.mem_cons.mp hmem with h | h
    · exact absurd h (by decide)
    · have := natStr_digits _ _ h
      simp at this
  · have := natStr_digits _ _ hmem
    simp at this

theorem e_not_mem_sign (m : Int) : 'e' ∉ (if m < 0 then ['-'] else ([] : List Char)) := by
  split_ifs <;> decide

theorem e_not_mem_stdChars (x : BigNumber) : 'e' ∉ BigNumber.stdChars x := by
  unfold BigNumber.stdChars
  intro hmem
  by_cases h1 : x.scale ≤ 0
  · rw [if_pos h1] at hmem
    rcases List.mem_append.mp hmem with h | h
    · exact e_not_mem_intStr _ h
    · exact absurd (List.eq_of_mem_replicate h) (by decide)
  · rw [if_neg h1] at hmem
    by_cases h2 : ((natStr x.mantissa.natAbs).length : Int) ≤ x.scale
    · rw [if_pos h2] at hmem
      rcases List.mem_append.mp hmem with h | h
      · exact e_not_mem_sign _ h
      · rcases List.mem_cons.mp h with h | h
        · exact absurd h (by decide)
        · rcases List.mem_cons.mp h with h | h
          · exact absurd h (by decide)
          · rcases List.mem_append.mp h with h | h
            · exact absurd (List.eq_of_mem_replicate h) (by decide)
            · have := natStr_digits _ _ h
              simp at this
    · rw [if_neg h2] at hmem
      rcases List.mem_append.mp hmem with h | h
      · exact e_not_mem_sign _ h
      · rcases List.mem_append.mp h with h | h
        · have := natStr_digits _ _ (List.take_subset _ _ h)
          simp at this
        · rcases List.mem_cons.mp h with h | h
          · exact absurd h (by decide)
          · have := natStr_digits _ _ (List.drop_subset _ _ h)
            simp at this

theorem e_mem_sciChars (x : BigNumber) (hm : x.mantissa ≠ 0) : 'e' ∈ BigNumber.sciChars x := by
  unfold BigNumber.sciChars
  rw [if_neg hm]
  rcases hnt : natStr x.mantissa.natAbs with _ | ⟨d, rest⟩
  · exact absurd hnt (natStr_ne_nil _)
  · simp

theorem splitAtDot_eq_none (l : List Char) (h : '.' ∉ l) : splitAtDot l = none := by
  induction l with
  | nil => rfl
  | cons c r ih =>
    simp only [List.mem_cons, not_or] at h
    have hc : c ≠ '.' := Ne.symm h.1
    simp [splitAtDot, hc, ih h.2]

theorem parseNatDigits_some_iff (l : List Char) :
    (∃ v, parseNatDigits l = some v) ↔ (l ≠ [] ∧ l.all Char.isDigit = true) := by
  unfold parseNatDigits
  split_ifs with h
  · simpa using h
  · simpa using h

theorem parseBigInt_some_iff (l : List Char) :
    (∃ v, parseBigInt l = some v) ↔ signedIntString l := by
  cases l with
  | nil => simp [parseBigInt, signedIntString]
  | cons c r =>
    by_cases h1 : c = '+'
    · subst h1
      have hor : ('+' : Char) = '+' ∨ ('+' : Char) = '-' := Or.inl rfl
      simp only [parseBigInt, signedIntString, if_pos rfl, if_pos hor]
      rw [← parseNatDigits_some_iff]
      cases parseNatDigits r <;> simp
    · by_cases h2 : c = '-'
      · subst h2
        have hne : ('-' : Char) ≠ '+' := by decide
        have hor : ('-' : Char) = '+' ∨ ('-' : Char) = '-' := Or.inr rfl
        simp only [parseBigInt, signedIntString, if_neg hne, if_pos rfl, if_pos hor]
        rw [← parseNatDigits_some_iff]
        cases parseNatDigits r <;> simp
      · have hns : ¬ (c = '+' ∨ c = '-') := by
          rintro (h | h)
          · exact h1 h
          · exact h2 h
        simp only [parseBigInt, signedIntString, if_neg h1, if_neg h2, if_neg hns]
        rw [show ((c :: r).all Char.isDigit = true) ↔ ((c :: r) ≠ [] ∧ (c :: r).all Char.isDigit = true) by simp]
        rw [← parseNatDigits_some_iff]
        cases parseNatDigits (c :: r) <;> simp

/-!
Claim theorems.
-/

/-- C7: The caret operator is evaluated left-associatively: in a chain of
equal-precedence carets the leftmost power is applied first (the pop-while-ge
rule pops an equal-precedence caret before pushing the incoming one), so
evaluating the expression 2 ^ 3 ^ 2 yields (2^3)^2 = 64. -/
theorem evaluate_caret_left_assoc : evaluate_expression "2 ^ 3 ^ 2" = .ok "64" := by decide

/-- C8: Given the token sequence 2, +, +, 3, the evaluator errors with the
not-enough-operands message, raised when the second plus is applied against an
operand stack holding fewer than two operands. -/
theorem evaluate_double_plus_error :
    evaluate_expression "2 + + 3" = .error "Not enough operands" := by decide

/-- C9: Evaluating 10 / 4 returns "2.5": division at the evaluator's fixed
precision of 15 produces the exact truncated quotient, normalization strips the
trailing zeros, and the 25-character plain-form formatting renders "2.5". -/
theorem evaluate_ten_div_four : evaluate_expression "10 / 4" = .ok "2.5" := by decide

/-- C4 counterexample: at x = ⟨5, -2⟩ (the value 500 with negative scale),
add(x, parse "0") returns ⟨500, 0⟩ while normalize(x) = ⟨5, -2⟩; the two are
not structurally equal, refuting the claim as stated. -/
theorem add_zero_neg_scale_cx :
    parse_number "0" = .ok ⟨0, 0⟩ ∧ BigNumber.add ⟨5, -2⟩ ⟨0, 0⟩ = ⟨500, 0⟩ ∧
      BigNumber.normalize ⟨5, -2⟩ = ⟨5, -2⟩ ∧ (⟨500, 0⟩ : BigNumber) ≠ ⟨5, -2⟩ := by decide

/-- C4 (amended): for every decimal value x whose scale is nonnegative,
add(x, parse "0") equals normalize(x) structurally.  (For negative scale the
aligned sum is returned at scale 0, which is numerically but not structurally
equal to normalize(x).) -/
theorem add_parse_zero_eq_normalize (x : BigNumber) (h : 0 ≤ x.scale) :
    ∃ z, parse_number "0" = .ok z ∧ x.add z = x.normalize := by
  refine ⟨⟨0, 0⟩, by decide, ?_⟩
  rw [add_eq]
  have h1 : x.addRaw ⟨0, 0⟩ = x := by
    unfold BigNumber.addRaw
    simp [max_eq_left h]
  rw [h1]

theorem add_parse_zero_eq_normalize_witness :
    ∃ z, parse_number "0" = .ok z ∧
      BigNumber.add ⟨2500, 3⟩ z = BigNumber.normalize ⟨2500, 3⟩ :=
  add_parse_zero_eq_normalize ⟨2500, 3⟩ (by decide)

/-- C5 counterexample: with a = ⟨-1,-1⟩, b = c = ⟨1,-1⟩ (the values -10, 10, 10),
(a+b)+c = ⟨10, 0⟩ while a+(b+c) = ⟨1, -1⟩: numerically equal but structurally
different, refuting associativity under structural equality for negative scales. -/
theorem add_assoc_neg_scale_cx :
    BigNumber.add (BigNumber.add ⟨-1, -1⟩ ⟨1, -1⟩) ⟨1, -1⟩ ≠
      BigNumber.add ⟨-1, -1⟩ (BigNumber.add ⟨1, -1⟩ ⟨1, -1⟩) := by decide

/-- C5 (amended): addition is associative under structural equality for all
decimal values whose scales are nonnegative. -/
theorem add_assoc_nonneg_scales (a b c : BigNumber)
    (ha : 0 ≤ a.scale) (hb : 0 ≤ b.scale) (_hc : 0 ≤ c.scale) :
    (a.add b).add c = a.add (b.add c) := by
  calc (a.add b).add c
      = ((a.addRaw b).normalize).add c := by rw [add_eq a b]
    _ = (a.addRaw b).add c :=
        add_norm_left _ c (by rw [addRaw_scale]; exact le_trans ha (le_max_left _ _))
    _ = ((a.addRaw b).addRaw c).normalize := add_eq _ _
    _ = (a.addRaw (b.addRaw c)).normalize := by rw [addRaw_assoc]
    _ = a.add (b.addRaw c) := (add_eq _ _).symm
    _ = a.add ((b.addRaw c).normalize) :=
        (add_norm_right a _ (by rw [addRaw_scale]; exact le_trans hb (le_max_left _ _))).symm
    _ = a.add (b.add c) := by rw [← add_eq b c]

theorem add_assoc_nonneg_scales_witness :
    BigNumber.add (BigNumber.add ⟨12, 1⟩ ⟨34, 2⟩) ⟨5, 0⟩ =
      BigNumber.add ⟨12, 1⟩ (BigNumber.add ⟨34, 2⟩ ⟨5, 0⟩) :=
  add_assoc_nonneg_scales ⟨12, 1⟩ ⟨34, 2⟩ ⟨5, 0⟩ (by decide) (by decide) (by decide)

/-- C6: Every value returned by add, subtract, multiply, a successful divide, or
a successful power is normalized: its mantissa is not divisible by 10 while its
scale is positive, and a zero result is represented as mantissa 0, scale 0. -/
theorem arithmetic_results_normalized (a b : BigNumber) (p : Int) :
    isNormalized (a.add b) ∧ isNormalized (a.subtract b) ∧ isNormalized (a.multiply b) ∧
      (∀ r, a.divide b p = .ok r → isNormalized r) ∧
      (∀ r, a.power b = .ok r → isNormalized r) := by
  refine ⟨isNormalized_normalize _, isNormalized_normalize _, isNormalized_normalize _, ?_, ?_⟩
  · intro r hr
    unfold BigNumber.divide at hr
    by_cases hb : b.mantissa = 0
    · rw [if_pos hb] at hr
      simp at hr
    · rw [if_neg hb] at hr
      simp only [Except.ok.injEq] at hr
      exact hr ▸ isNormalized_normalize _
  · intro r hr
    unfold BigNumber.power at hr
    split_ifs at hr with h1 h2 h3 h4 <;>
      first
        | (simp at hr
           done)
        | (simp only [Except.ok.injEq] at hr
           subst hr
           first
             | decide
             | exact isNormalized_normalize _)

theorem arithmetic_results_normalized_witness :
    isNormalized (⟨25, 1⟩ : BigNumber) ∧ isNormalized (⟨8, 0⟩ : BigNumber) :=
  ⟨(arithmetic_results_normalized ⟨10, 0⟩ ⟨4, 0⟩ 15).2.2.2.1 ⟨25, 1⟩ (by decide),
   (arithmetic_results_normalized ⟨2, 0⟩ ⟨3, 0⟩ 15).2.2.2.2 ⟨8, 0⟩ (by decide)⟩

theorem divide_eq (x y : BigNumber) (p : Int) (hy : y.mantissa ≠ 0) :
    x.divide y p = .ok (BigNumber.normalize
      ⟨Int.tdiv (if 0 < p + y.scale - x.scale then
          x.mantissa * 10 ^ (p + y.scale - x.scale).toNat else x.mantissa) y.mantissa,
        if 0 < p + y.scale - x.scale then p + y.scale - x.scale else x.scale - y.scale⟩) := by
  unfold BigNumber.divide
  rw [if_neg hy]

/-- C10: Division truncates toward zero also on a negated dividend: for every
dividend a, nonzero divisor b and precision p, divide(neg a, b, p) succeeds and
returns exactly the negation (same mantissa magnitude and scale, sign flipped)
of divide(a, b, p). -/
theorem divide_neg_dividend (a b : BigNumber) (p : Int) (hb : b.mantissa ≠ 0) :
    ∃ r, a.divide b p = .ok r ∧ (a.neg).divide b p = .ok r.neg := by
  rw [divide_eq a b p hb, divide_eq a.neg b p hb]
  refine ⟨_, rfl, ?_⟩
  have hsc : (a.neg).scale = a.scale := rfl
  have hma : (a.neg).mantissa = -a.mantissa := rfl
  rw [hsc, hma]
  have hdvd : (if 0 < p + b.scale - a.scale then
        -a.mantissa * 10 ^ (p + b.scale - a.scale).toNat else -a.mantissa) =
      -(if 0 < p + b.scale - a.scale then
        a.mantissa * 10 ^ (p + b.scale - a.scale).toNat else a.mantissa) := by
    split_ifs <;> ring
  rw [hdvd, Int.neg_tdiv]
  congr 1
  generalize Int.tdiv (if 0 < p + b.scale - a.scale then
    a.mantissa * 10 ^ (p + b.scale - a.scale).toNat else a.mantissa) b.mantissa = q
  generalize (if 0 < p + b.scale - a.scale then p + b.scale - a.scale else a.scale - b.scale) = rs
  exact normalize_neg ⟨q, rs⟩

theorem divide_neg_dividend_witness :
    ∃ r, BigNumber.divide ⟨1, 0⟩ ⟨3, 0⟩ 15 = .ok r ∧
      BigNumber.divide (BigNumber.neg ⟨1, 0⟩) ⟨3, 0⟩ 15 = .ok r.neg :=
  divide_neg_dividend ⟨1, 0⟩ ⟨3, 0⟩ 15 (by decide)

/-- C1 counterexample: with base ⟨2,0⟩ and exponent ⟨2,-1⟩ (scale -1 ≤ 0,
represented value 2*10^1 = 20, which is a nonnegative whole number fitting an
i32), power returns ⟨4,0⟩ = base^2 — the exponent's mantissa — not base^20,
refuting the claim as stated. -/
theorem power_scale_ignored_cx :
    BigNumber.power ⟨2, 0⟩ ⟨2, -1⟩ = .ok ⟨4, 0⟩ ∧
      BigNumber.val ⟨2, -1⟩ = 20 ∧
      BigNumber.val ⟨4, 0⟩ ≠ BigNumber.val ⟨2, 0⟩ ^ (20 : Nat) := by
  refine ⟨by decide, ?_, ?_⟩
  · simp [BigNumber.val]
    norm_num
  · simp [BigNumber.val]
    norm_num

/-- C1 (amended): for every base and every exponent whose scale is ≤ 0 and whose
MANTISSA (not its represented value: the scale is ignored beyond the sign check)
is a nonnegative integer n fitting an i32, power succeeds and returns the
normalized product of n copies of the base (value base^n), with exponent
mantissa 0 yielding mantissa 1, scale 0 regardless of base. -/
theorem power_exp_mantissa (base e : BigNumber) (hs : e.scale ≤ 0)
    (h0 : 0 ≤ e.mantissa) (hf : e.mantissa ≤ 2147483647) :
    ∃ r, base.power e = .ok r ∧ r.val = base.val ^ e.mantissa.toNat ∧ isNormalized r ∧
      (e.mantissa = 0 → r = ⟨1, 0⟩) := by
  unfold BigNumber.power
  rw [if_neg (by omega : ¬ 0 < e.scale),
    if_neg (by omega : ¬ (e.mantissa < -2147483648 ∨ 2147483647 < e.mantissa)),
    if_neg (by omega : ¬ e.mantissa < 0)]
  by_cases h : e.mantissa = 0
  · rw [if_pos h]
    refine ⟨⟨1, 0⟩, rfl, ?_, by decide, fun _ => rfl⟩
    simp [BigNumber.val, h]
  · rw [if_neg h]
    refine ⟨_, rfl, ?_, isNormalized_normalize _, fun h' => absurd h' h⟩
    rw [val_normalize, val_powLoop]
    congr 1
    omega

theorem power_exp_mantissa_witness :
    ∃ r, BigNumber.power ⟨2, 0⟩ ⟨3, 0⟩ = .ok r ∧
      r.val = BigNumber.val ⟨2, 0⟩ ^ ((3 : Int)).toNat ∧ isNormalized r ∧
      ((3 : Int) = 0 → r = ⟨1, 0⟩) :=
  power_exp_mantissa ⟨2, 0⟩ ⟨3, 0⟩ (by decide) (by decide) (by decide)

/-- C2 counterexample: the input "--5" — whose post-sign remainder "-5" is not a
digit string — parses successfully to ⟨5,0⟩ instead of returning an error,
because BigInt's own parser consumes the second sign. -/
theorem from_decimal_double_sign_cx :
    BigNumber.from_decimal ("--5".data) = .ok ⟨5, 0⟩ ∧
      (splitSign (rustTrim ("--5".data))).2.all Char.isDigit = false := by decide

/-- C2 (amended): in plain-decimal parsing of an input containing no decimal
point, after consuming one optional leading sign, parse succeeds exactly when
the entire remainder is itself a valid SIGNED arbitrary-precision integer string
(one more optional sign followed by a nonempty digit run — so "--5" parses to
5); a nonempty remainder of any other shape is an error naming the invalid
integer format. -/
theorem from_decimal_no_dot_signed (l : List Char)
    (hnd : '.' ∉ (splitSign (rustTrim l)).2) :
    ((∃ v, BigNumber.from_decimal l = .ok v) ↔ signedIntString (splitSign (rustTrim l)).2) ∧
      ((splitSign (rustTrim l)).2 ≠ [] → ¬ signedIntString (splitSign (rustTrim l)).2 →
        BigNumber.from_decimal l =
          .error ("Invalid integer format: " ++ bigIntErrMsg (splitSign (rustTrim l)).2)) := by
  unfold BigNumber.from_decimal
  simp only []
  by_cases hz : (splitSign (rustTrim l)).2 = []
  · rw [if_pos hz]
    constructor
    · constructor
      · rintro ⟨v, hv⟩
        simp at hv
      · intro hsig
        rw [hz] at hsig
        simp [signedIntString] at hsig
    · intro hne _
      exact absurd hz hne
  · rw [if_neg hz, splitAtDot_eq_none _ hnd]
    cases hpb : parseBigInt (splitSign (rustTrim l)).2 with
    | some m =>
      simp only [hpb]
      constructor
      · constructor
        · intro _
          exact (parseBigInt_some_iff _).mp ⟨m, hpb⟩
        · intro _
          exact ⟨_, rfl⟩
      · intro _ hnsig
        exact absurd ((parseBigInt_some_iff _).mp ⟨m, hpb⟩) hnsig
    | none =>
      simp only [hpb]
      constructor
      · constructor
        · rintro ⟨v, hv⟩
          simp at hv
        · intro hsig
          obtain ⟨v, hv⟩ := (parseBigInt_some_iff _).mpr hsig
          rw [hpb] at hv
          simp at hv
      · intro _ _
        trivial

theorem from_decimal_no_dot_signed_witness :
    ((∃ v, BigNumber.from_decimal ("42".data) = .ok v) ↔
      signedIntString (splitSign (rustTrim ("42".data))).2) ∧
      ((splitSign (rustTrim ("42".data))).2 ≠ [] →
        ¬ signedIntString (splitSign (rustTrim ("42".data))).2 →
        BigNumber.from_decimal ("42".data) =
          .error ("Invalid integer format: " ++ bigIntErrMsg (splitSign (rustTrim ("42".data))).2)) :=
  from_decimal_no_dot_signed ("42".data) (by decide)

/-- C3 counterexample: the zero value ⟨0, -30⟩ has plain form "0" followed by 30
zeros (31 characters, exceeding the 25-character limit), yet the formatter
renders it as "0" with no exponent marker, refuting the claimed equivalence for
the zero value. -/
theorem to_string_zero_large_scale_cx :
    BigNumber.to_string_with_limit ⟨0, -30⟩ 25 = "0" ∧
      25 < (BigNumber.to_standard_string ⟨0, -30⟩).length ∧
      'e' ∉ (BigNumber.to_string_with_limit ⟨0, -30⟩ 25).data := by decide

/-- C3 (amended): for every decimal value with a NONZERO mantissa and every
character limit, the formatted output contains an exponent marker iff the plain
form's length strictly exceeds the limit; a zero-mantissa value never renders
with an exponent marker (its scientific fallback is the bare "0"). -/
theorem to_string_with_limit_e_iff (x : BigNumber) (maxc : Nat) :
    (x.mantissa ≠ 0 →
      ('e' ∈ (x.to_string_with_limit maxc).data ↔ maxc < x.to_standard_string.length)) ∧
      (x.mantissa = 0 → 'e' ∉ (x.to_string_with_limit maxc).data) := by
  unfold BigNumber.to_string_with_limit
  by_cases h : (BigNumber.to_standard_string x).length ≤ maxc
  · rw [if_pos h]
    constructor
    · intro _
      constructor
      · intro hmem
        exact absurd hmem (e_not_mem_stdChars x)
      · intro hlt
        omega
    · intro _
      exact fun hmem => absurd hmem (e_not_mem_stdChars x)
  · rw [if_neg h]
    constructor
    · intro hm
      constructor
      · intro _
        omega
      · intro _
        exact e_mem_sciChars x hm
    · intro hm hmem
      have hsci : BigNumber.sciChars x = ['0'] := by
        unfold BigNumber.sciChars
        rw [if_pos hm]
      rw [show (BigNumber.to_scientific x).data = BigNumber.sciChars x from rfl, hsci] at hmem
      simp at hmem

theorem to_string_with_limit_e_iff_witness :
    ('e' ∈ (BigNumber.to_string_with_limit ⟨123, 0⟩ 2).data ↔
      2 < (BigNumber.to_standard_string ⟨123, 0⟩).length) :=
  (to_string_with_limit_e_iff ⟨123, 0⟩ 2).1 (by decide)
